import Mathlib

/-!
Verification of the recipe feasibility engine in `chatbot.py` of the
Bitfest solution repository: quantity/unit normalization, ingredient name
canonicalization, the feasibility scorer, the ranker and the prompt
builder.

Embedding conventions: Python floats are modelled as exact rationals
(`ℚ`); Python string operations are modelled on `List Char` (all inputs
of interest are ASCII); code that can raise an exception (the
`float(...)` conversion inside `parse_quantity_str`, and everything that
calls it) is modelled with `Option`, `none` standing for a raised
exception. The database fetches are external collaborators: a recipe is
modelled as carrying the ingredient rows that
`fetch_recipe_ingredients` would return for it.
-/

/-- Lowercase a single ASCII character, as Python `str.lower` does on
ASCII input. -/
def lowerChar (c : Char) : Char :=
  if 'A' ≤ c ∧ c ≤ 'Z' then Char.ofNat (c.toNat + 32) else c

/-- Python `str.lower` on an ASCII string, at the character-list level. -/
def pyLower (l : List Char) : List Char := l.map lowerChar

/-- Whitespace characters recognised by Python `str.strip` (the ASCII
ones: space, tab, newline, carriage return, vertical tab, form feed). -/
def isSpaceChar (c : Char) : Bool :=
  c == ' ' || c == '\t' || c == '\n' || c == '\r' ||
    c == Char.ofNat 11 || c == Char.ofNat 12

/-- Drop leading whitespace (left half of Python `str.strip`). -/
def trimLeft (l : List Char) : List Char := l.dropWhile isSpaceChar

/-- Drop trailing whitespace (right half of Python `str.strip`). -/
def trimRight (l : List Char) : List Char :=
  (l.reverse.dropWhile isSpaceChar).reverse

/-- Python `str.strip`: drop whitespace at both ends. -/
def pyStrip (l : List Char) : List Char := trimRight (trimLeft l)

/-- Boolean test that `pat` is a prefix of the second list. -/
def hasPref : List Char → List Char → Bool
  | [], _ => true
  | _ :: _, [] => false
  | p :: ps, c :: cs => p == c && hasPref ps cs

/-- The Python substring test `pat in s`. -/
def containsSub (pat : List Char) : List Char → Bool
  | [] => hasPref pat []
  | c :: cs => hasPref pat (c :: cs) || containsSub pat cs

/-- Fuelled scanner for Python `s.replace(pat, "")`: delete
non-overlapping occurrences of `pat` left to right, resuming after each
deleted occurrence. The fuel is an upper bound on the number of scanning
steps; `removeAll` supplies the length of the string, which suffices. -/
def removeAux (pat : List Char) : Nat → List Char → List Char
  | _, [] => []
  | 0, l => l
  | fuel + 1, c :: cs =>
    if hasPref pat (c :: cs) then removeAux pat fuel (List.drop pat.length (c :: cs))
    else c :: removeAux pat fuel cs

/-- Python `s.replace(pat, "")`. -/
def removeAll (pat l : List Char) : List Char := removeAux pat l.length l

/-- Value of a (most-significant-first) list of decimal digit characters. -/
def natOfDigits (l : List Char) : ℕ :=
  l.foldl (fun n c => n * 10 + (c.toNat - 48)) 0

/-- Characters matched by the character class of the regex
`([\d\.]+)` in `parse_quantity_str`: a digit or a dot. -/
def isNumChar (c : Char) : Bool := c.isDigit || c == '.'

/-- Leftmost maximal run of digit-or-dot characters, as found by
`re.search(r"([\d\.]+)", s)`; `none` when the regex does not match. -/
def findTok : List Char → Option (List Char)
  | [] => none
  | c :: cs => if isNumChar c then some (c :: cs.takeWhile isNumChar) else findTok cs

/-- Python `float(tok)` succeeds on a digit-or-dot token exactly when
the token holds at least one digit and at most one dot. -/
def tokValid (t : List Char) : Bool :=
  decide ((t.filter (fun c => c == '.')).length ≤ 1) && t.any Char.isDigit

/-- Digits before the (first) dot of a numeric token. -/
def tokIntDigits (t : List Char) : List Char :=
  t.takeWhile (fun c => !(c == '.'))

/-- Digits after the (first) dot of a numeric token. -/
def tokFracDigits (t : List Char) : List Char :=
  (t.dropWhile (fun c => !(c == '.'))).drop 1

/-- Python `float(tok)` on a token made only of digits and dots: on a
valid token it denotes `intpart + fracpart / 10 ^ (digits after the
dot)`; otherwise `float` raises `ValueError`, modelled as `none`. -/
def parseFloatTok (t : List Char) : Option ℚ :=
  if tokValid t then
    some ((natOfDigits (tokIntDigits t) : ℚ) +
      (natOfDigits (tokFracDigits t) : ℚ) / (10 : ℚ) ^ (tokFracDigits t).length)
  else none

/-- Amount-extraction step of `parse_quantity_str`: `amount =
float(match.group(1)) if match else 1.0`. -/
def amountTok (l : List Char) : Option ℚ :=
  match findTok l with
  | none => some 1
  | some t => parseFloatTok t

/-- The `UNIT_MAP` table of `chatbot.py`, in its declaration (and hence
iteration) order; every conversion factor to grams is integral, so the
factors are stored as naturals and cast to `ℚ` where they are used. -/
def UNIT_MAP : List (String × ℕ) :=
  [("g", 1), ("gram", 1), ("gram.", 1), ("grams", 1),
   ("tbsp", 15), ("tablespoon", 15), ("tsp", 5), ("teaspoon", 5),
   ("cup", 240), ("cups", 240), ("ml", 1),
   ("ltr", 1000), ("litre", 1000), ("liter", 1000), ("number", 1)]

/-- The unit scan of `parse_quantity_str`: the factor of the first
`UNIT_MAP` key occurring as a substring of the (lowercased, stripped)
quantity string, `none` when no key occurs. -/
def unitLookup (l : List Char) : Option ℕ :=
  (UNIT_MAP.find? (fun kf => containsSub kf.1.data l)).map (fun kf => kf.2)

/-- The preprocessing `qty_str = qty_str.lower().strip()` shared by the
amount extraction and the unit scan. -/
def pyPrep (s : String) : List Char := pyStrip (pyLower s.data)

/-- The function `parse_quantity_str` of `chatbot.py`: lowercase and
strip, extract the first digit-or-dot run as the amount (defaulting to
1.0), then multiply by the factor of the first matching unit keyword, or
return the amount unconverted when no keyword matches. `none` models the
`ValueError` that `float` raises on a malformed numeric token. -/
def parse_quantity_str (s : String) : Option ℚ :=
  match amountTok (pyPrep s) with
  | none => none
  | some a =>
    match unitLookup (pyPrep s) with
    | some f => some (a * (f : ℚ))
    | none => some a

/-- The descriptor word list of `normalize_name`, in order. -/
def DESCRIPTORS : List String :=
  ["boiled", "minced", "chopped", "powder", "ground",
   "fresh", "dried", "sliced", "shredded", "optional"]

/-- The function `normalize_name` of `chatbot.py`: lowercase and strip,
delete every occurrence of each descriptor word in turn, drop a single
trailing `'s'`, and strip again. -/
def normalize_name (s : String) : String :=
  let n0 := pyStrip (pyLower s.data)
  let n1 := DESCRIPTORS.foldl (fun acc d => removeAll d.data acc) n0
  let n2 := if n1.getLast? = some 's' then n1.dropLast else n1
  String.mk (pyStrip n2)

/-- Evaluation helper: `parse_quantity_str` on a string whose numeric
token is valid and whose unit scan finds a factor. All hypotheses on
concrete inputs are decidable at the character level; the last one is
rational arithmetic. -/
theorem parse_eval_some (s : String) (t : List Char) (i f k fac : ℕ) (q : ℚ)
    (h1 : findTok (pyPrep s) = some t)
    (hv : tokValid t = true)
    (hi : natOfDigits (tokIntDigits t) = i)
    (hf : natOfDigits (tokFracDigits t) = f)
    (hk : (tokFracDigits t).length = k)
    (hu : unitLookup (pyPrep s) = some fac)
    (hq : ((i : ℚ) + (f : ℚ) / 10 ^ k) * (fac : ℚ) = q) :
    parse_quantity_str s = some q := by
  have ha : amountTok (pyPrep s) = some ((i : ℚ) + (f : ℚ) / 10 ^ k) := by
    simp only [amountTok, h1, parseFloatTok, hv, if_true, hi, hf, hk]
  simp only [parse_quantity_str, ha, hu, hq]

/-- Evaluation helper: `parse_quantity_str` on a string whose numeric
token is valid and whose unit scan finds no factor. -/
theorem parse_eval_nounit (s : String) (t : List Char) (i f k : ℕ) (q : ℚ)
    (h1 : findTok (pyPrep s) = some t)
    (hv : tokValid t = true)
    (hi : natOfDigits (tokIntDigits t) = i)
    (hf : natOfDigits (tokFracDigits t) = f)
    (hk : (tokFracDigits t).length = k)
    (hu : unitLookup (pyPrep s) = none)
    (hq : ((i : ℚ) + (f : ℚ) / 10 ^ k) = q) :
    parse_quantity_str s = some q := by
  have ha : amountTok (pyPrep s) = some ((i : ℚ) + (f : ℚ) / 10 ^ k) := by
    simp only [amountTok, h1, parseFloatTok, hv, if_true, hi, hf, hk]
  simp only [parse_quantity_str, ha, hu, hq]

/-- A pantry row, as returned by `fetch_current_ingredients`. The
quantity is kept as the text that the f-string
`f"{ing['quantity']}{ing['unit']}"` interpolates, since the scorer only
ever uses it concatenated with the unit into such a string. -/
structure PantryItem where
  name : String
  quantity : String
  unit : String
deriving DecidableEq

/-- A recipe ingredient row, as returned by `fetch_recipe_ingredients`. -/
structure RecipeIng where
  item : String
  quantity : String
deriving DecidableEq

/-- A recipe record from the `recipes` table, carrying the ingredient
rows that `fetch_recipe_ingredients` returns for its id. -/
structure Recipe where
  title : String
  taste : String
  cuisine : String
  prep_time : String
  description : String
  instructions : String
  ingredients : List RecipeIng
deriving DecidableEq

/-- The `VITAL_INGREDIENTS` set of `get_feasibility_score`; only
membership is ever queried, so it is modelled as a list. -/
def VITAL : List String :=
  ["egg", "flour", "milk", "pasta", "ramen noodle", "chicken", "sugar"]

/-- The epsilon `1e-9` of the vital-ingredient check. -/
def vitalEps : ℚ := 1 / 1000000000

/-- Python `dict.get(k, 0.0)` on the association list modelling
`user_dict`. -/
def dictGet : List (String × ℚ) → String → ℚ
  | [], _ => 0
  | (k', v') :: rest, k => if k' = k then v' else dictGet rest k

/-- Python `dict` assignment `d[k] = v`: replace the value of an
existing key in place, append a fresh key at the end. -/
def dictSet : List (String × ℚ) → String → ℚ → List (String × ℚ)
  | [], k, v => [(k, v)]
  | (k', v') :: rest, k, v =>
    if k' = k then (k, v) :: rest else (k', v') :: dictSet rest k v

/-- The pantry-map construction loop of `get_feasibility_score`:
`user_dict[norm] = user_dict.get(norm, 0.0) + parse_quantity_str(...)`,
item by item. `none` when a quantity string makes `float` raise. -/
def buildAux (acc : List (String × ℚ)) : List PantryItem → Option (List (String × ℚ))
  | [] => some acc
  | i :: rest =>
    match parse_quantity_str (i.quantity ++ i.unit) with
    | none => none
    | some g =>
      buildAux (dictSet acc (normalize_name i.name) (dictGet acc (normalize_name i.name) + g)) rest

/-- The pantry map `user_dict` of `get_feasibility_score`. -/
def buildUserDict (items : List PantryItem) : Option (List (String × ℚ)) :=
  buildAux [] items

/-- The main loop of `get_feasibility_score` over the recipe
ingredients, with the trailing coverage computation folded into the base
case: `ud` is the pantry map, `needed` the precomputed
`len(recipe_ings)`, `sat` the running `satisfied_count` and `missing`
the accumulated `missing_ings`. The vital short-circuit returns
immediately; the base case computes the coverage ratio and collapses it
to 0 when below 1/2. -/
def scoreLoop (ud : List (String × ℚ)) (needed : ℕ) :
    List RecipeIng → ℕ → List (String × ℚ) → Option (ℚ × List (String × ℚ))
  | [], sat, missing =>
    let score : ℚ := if 0 < needed then (sat : ℚ) / (needed : ℚ) else 1
    if score < 1 / 2 then some (0, missing) else some (score, missing)
  | r :: rest, sat, missing =>
    match parse_quantity_str r.quantity with
    | none => none
    | some ng =>
      if normalize_name r.item ∈ VITAL ∧ dictGet ud (normalize_name r.item) < vitalEps then
        some (0, [(normalize_name r.item, ng)])
      else if ng * (4 / 5) ≤ dictGet ud (normalize_name r.item) then
        scoreLoop ud needed rest (sat + 1) missing
      else
        scoreLoop ud needed rest sat
          (missing ++ [(normalize_name r.item, max 0 (ng - dictGet ud (normalize_name r.item)))])

/-- The function `get_feasibility_score` of `chatbot.py`, with the
ingredient rows of the recipe passed directly in place of the database fetch
by recipe id. Returns the pair `(score, missing_ings)`; `none` models a
`ValueError` escaping from `parse_quantity_str`. -/
def get_feasibility_score (recipe_ings : List RecipeIng)
    (user_ingredients : List PantryItem) : Option (ℚ × List (String × ℚ)) :=
  match buildUserDict user_ingredients with
  | none => none
  | some ud => scoreLoop ud recipe_ings.length recipe_ings 0 []

/-- Range invariant of the scorer loop: provided the running satisfied
count plus the remaining ingredients cannot exceed the precomputed
total, any returned score is 0 or lies in `[1/2, 1]`. -/
theorem scoreLoop_range (ud : List (String × ℚ)) (needed : ℕ)
    (l : List RecipeIng) (sat : ℕ) (missing : List (String × ℚ)) (s : ℚ)
    (m : List (String × ℚ)) (hle : sat + l.length ≤ needed)
    (h : scoreLoop ud needed l sat missing = some (s, m)) :
    s = 0 ∨ (1 / 2 ≤ s ∧ s ≤ 1) := by
  induction l generalizing sat missing with
  | nil =>
    simp only [scoreLoop] at h
    by_cases h0 : 0 < needed
    · rw [if_pos h0] at h
      by_cases hlt : ((sat : ℚ) / (needed : ℚ)) < 1 / 2
      · rw [if_pos hlt] at h
        left
        exact ((Prod.mk.injEq _ _ _ _).mp (Option.some.inj h)).1.symm
      · rw [if_neg hlt] at h
        right
        obtain ⟨hs, _⟩ := (Prod.mk.injEq _ _ _ _).mp (Option.some.inj h)
        have hsat : sat ≤ needed := by simpa using hle
        constructor
        · rw [← hs]; exact not_lt.mp hlt
        · rw [← hs, div_le_one (by exact_mod_cast h0)]
          exact_mod_cast hsat
    · rw [if_neg h0] at h
      rw [if_neg (by norm_num)] at h
      right
      obtain ⟨hs, _⟩ := (Prod.mk.injEq _ _ _ _).mp (Option.some.inj h)
      constructor
      · rw [← hs]; norm_num
      · rw [← hs]
  | cons r rest ih =>
    simp only [scoreLoop] at h
    cases hp : parse_quantity_str r.quantity with
    | none => rw [hp] at h; simp at h
    | some ng =>
      rw [hp] at h
      simp only [] at h
      by_cases hvit : normalize_name r.item ∈ VITAL ∧
          dictGet ud (normalize_name r.item) < vitalEps
      · rw [if_pos hvit] at h
        left
        exact ((Prod.mk.injEq _ _ _ _).mp (Option.some.inj h)).1.symm
      · rw [if_neg hvit] at h
        by_cases hsat : ng * (4 / 5) ≤ dictGet ud (normalize_name r.item)
        · rw [if_pos hsat] at h
          exact ih (sat + 1) missing (by simp at hle; omega) h
        · rw [if_neg hsat] at h
          exact ih sat _ (by simp at hle; omega) h

/-- C2: for every recipe and pantry, whenever `get_feasibility_score`
returns a result, its score is either exactly 0 or lies in the closed
interval `[1/2, 1]`: any coverage ratio below 1/2 is collapsed to 0
before returning (the accumulated missing list being kept in that
branch of the code), so no returned score lies strictly between 0 and
1/2. -/
theorem C2_score_range (ings : List RecipeIng) (pantry : List PantryItem)
    (s : ℚ) (m : List (String × ℚ))
    (h : get_feasibility_score ings pantry = some (s, m)) :
    s = 0 ∨ (1 / 2 ≤ s ∧ s ≤ 1) := by
  unfold get_feasibility_score at h
  cases hud : buildUserDict pantry with
  | none => rw [hud] at h; simp at h
  | some ud =>
    rw [hud] at h
    exact scoreLoop_range ud ings.length ings 0 [] s m (by simp) h

/-- Witness for C2 at a concrete input: the empty recipe against the
empty pantry scores 1 with no missing list. -/
theorem C2_score_range_witness :
    get_feasibility_score [] [] = some (1, []) ∧
      ((1 : ℚ) = 0 ∨ (1 / 2 ≤ (1 : ℚ) ∧ (1 : ℚ) ≤ 1)) := by
  have hh : get_feasibility_score [] [] = some (1, []) := by
    norm_num [get_feasibility_score, buildUserDict, buildAux, scoreLoop]
  exact ⟨hh, C2_score_range [] [] 1 [] hh⟩

/-- Vital short-circuit of the scorer loop: if every ingredient before
`r` parses and does not itself trip the vital check, while `r` is vital
and effectively absent from the pantry map, the loop returns score 0
and the singleton missing list `(canonical name of r, grams required
by r)`, whatever the running counters hold. -/
theorem scoreLoop_vital (ud : List (String × ℚ)) (needed : ℕ)
    (pre post : List RecipeIng) (r : RecipeIng) (q : ℚ)
    (hpre : ∀ p ∈ pre, (∃ qp, parse_quantity_str p.quantity = some qp) ∧
      ¬(normalize_name p.item ∈ VITAL ∧ dictGet ud (normalize_name p.item) < vitalEps))
    (hq : parse_quantity_str r.quantity = some q)
    (hv : normalize_name r.item ∈ VITAL)
    (hm : dictGet ud (normalize_name r.item) < vitalEps) :
    ∀ sat missing, scoreLoop ud needed (pre ++ r :: post) sat missing =
      some (0, [(normalize_name r.item, q)]) := by
  induction pre with
  | nil =>
    intro sat missing
    simp only [List.nil_append, scoreLoop, hq]
    rw [if_pos ⟨hv, hm⟩]
  | cons p pre ih =>
    intro sat missing
    obtain ⟨⟨qp, hqp⟩, hnv⟩ := hpre p (List.mem_cons_self p pre)
    simp only [List.cons_append, scoreLoop, hqp]
    rw [if_neg hnv]
    by_cases hs : qp * (4 / 5) ≤ dictGet ud (normalize_name p.item)
    · rw [if_pos hs]
      exact ih (fun x hx => hpre x (List.mem_cons_of_mem p hx)) (sat + 1) missing
    · rw [if_neg hs]
      exact ih (fun x hx => hpre x (List.mem_cons_of_mem p hx)) sat _

/-- C1: for every recipe and pantry, if the canonical name of a recipe
ingredient is vital and the pantry map holds less than `vitalEps` grams of it
— the ingredient being the one at which the left-to-right scan first
trips that check, every earlier ingredient having parsed and been
evaluated normally — then the scorer returns exactly score 0 with a
missing list holding exactly the one entry `(canonical name, required
grams)`, regardless of how well every other ingredient is stocked and
with no earlier shortfall surviving into the returned list. -/
theorem C1_vital_short_circuit (ings : List RecipeIng) (pantry : List PantryItem)
    (ud : List (String × ℚ)) (pre post : List RecipeIng) (r : RecipeIng) (q : ℚ)
    (hud : buildUserDict pantry = some ud)
    (hsplit : ings = pre ++ r :: post)
    (hpre : ∀ p ∈ pre, (∃ qp, parse_quantity_str p.quantity = some qp) ∧
      ¬(normalize_name p.item ∈ VITAL ∧ dictGet ud (normalize_name p.item) < vitalEps))
    (hq : parse_quantity_str r.quantity = some q)
    (hv : normalize_name r.item ∈ VITAL)
    (hm : dictGet ud (normalize_name r.item) < vitalEps) :
    get_feasibility_score ings pantry = some (0, [(normalize_name r.item, q)]) := by
  subst hsplit
  unfold get_feasibility_score
  rw [hud]
  exact scoreLoop_vital ud _ pre post r q hpre hq hv hm 0 []

/-- Witness for C1 at a concrete input: a recipe needing only milk
against an empty pantry. -/
theorem C1_vital_short_circuit_witness :
    get_feasibility_score [⟨"milk", "200ml"⟩] [] = some (0, [("milk", 200)]) := by
  have hn : normalize_name "milk" = "milk" := by decide
  have h := C1_vital_short_circuit [⟨"milk", "200ml"⟩] [] [] [] []
    ⟨"milk", "200ml"⟩ 200 rfl rfl (by simp)
    (parse_eval_some _ "200".data 200 0 0 1 _ (by decide) (by decide) (by decide)
      (by decide) (by decide) (by decide) (by norm_num))
    (by decide) (by norm_num [dictGet, vitalEps])
  simpa [hn] using h

/-- C3: a non-vital recipe ingredient is counted as satisfied (the
counter advances, nothing is appended) exactly when the pantry holds at
least `4/5` of its required grams; at any amount strictly below that the
pair `(canonical name, max 0 (required - available))` is appended to the
missing list instead. At exactly 80 percent the first branch applies. -/
theorem C3_tolerance (ud : List (String × ℚ)) (needed : ℕ) (r : RecipeIng)
    (rest : List RecipeIng) (sat : ℕ) (missing : List (String × ℚ)) (q : ℚ)
    (hq : parse_quantity_str r.quantity = some q)
    (hnv : normalize_name r.item ∉ VITAL) :
    (q * (4 / 5) ≤ dictGet ud (normalize_name r.item) →
      scoreLoop ud needed (r :: rest) sat missing =
        scoreLoop ud needed rest (sat + 1) missing) ∧
    (dictGet ud (normalize_name r.item) < q * (4 / 5) →
      scoreLoop ud needed (r :: rest) sat missing =
        scoreLoop ud needed rest sat
          (missing ++ [(normalize_name r.item,
            max 0 (q - dictGet ud (normalize_name r.item)))])) := by
  constructor
  · intro hs
    simp only [scoreLoop, hq]
    rw [if_neg (fun hc => hnv hc.1), if_pos hs]
  · intro hs
    simp only [scoreLoop, hq]
    rw [if_neg (fun hc => hnv hc.1), if_neg (not_le.mpr hs)]

/-- Witness for C3 at a concrete input: 80 grams in the pantry meet a
100-gram requirement exactly at the 80 percent threshold, so the
ingredient is satisfied and the counter advances. -/
theorem C3_tolerance_witness :
    ((100 : ℚ) * (4 / 5) ≤ 80) ∧
      scoreLoop [("tomato", 80)] 1 [⟨"tomato", "100g"⟩] 0 [] =
        scoreLoop [("tomato", 80)] 1 [] 1 [] := by
  have hn : normalize_name "tomato" = "tomato" := by decide
  have hq : parse_quantity_str "100g" = some 100 :=
    parse_eval_some _ "100".data 100 0 0 1 _ (by decide) (by decide) (by decide)
      (by decide) (by decide) (by decide) (by norm_num)
  have h := (C3_tolerance [("tomato", 80)] 1 ⟨"tomato", "100g"⟩ [] 0 [] 100 hq
    (by decide)).1
  rw [hn] at h
  have hd : dictGet [("tomato", (80 : ℚ))] "tomato" = 80 := by simp [dictGet]
  rw [hd] at h
  exact ⟨by norm_num, h (by norm_num)⟩

/-- C9: the scorer is deterministic in its inputs — two invocations on
equal recipe ingredient lists and equal pantries return equal results.
The absence of mutation of the pantry and recipe data is inherent to
the functional embedding: the function only reads its arguments and
builds its result afresh, as the Python code does. -/
theorem C9_deterministic (i1 i2 : List RecipeIng) (p1 p2 : List PantryItem)
    (hi : i1 = i2) (hp : p1 = p2) :
    get_feasibility_score i1 p1 = get_feasibility_score i2 p2 := by
  rw [hi, hp]

/-- Witness for C9 at a concrete input. -/
theorem C9_deterministic_witness :
    get_feasibility_score [⟨"egg", "2"⟩] [⟨"egg", "6", "number"⟩] =
      get_feasibility_score [⟨"egg", "2"⟩] [⟨"egg", "6", "number"⟩] :=
  C9_deterministic [⟨"egg", "2"⟩] [⟨"egg", "2"⟩]
    [⟨"egg", "6", "number"⟩] [⟨"egg", "6", "number"⟩] rfl rfl

/-- C5: the end-to-end scenario — the pantry holds egg 6 number, flour
500 gram and sugar 50 gram; the recipe requires egg "2", flour "300g",
sugar "100g" and milk "200ml" in that order. Milk is vital and absent,
so the scorer returns score exactly 0 with missing list exactly
`[("milk", 200)]` (the sugar shortfall, hit earlier in the scan, is
discarded by the short-circuit). -/
theorem C5_pancakes_scenario :
    get_feasibility_score
      [⟨"egg", "2"⟩, ⟨"flour", "300g"⟩, ⟨"sugar", "100g"⟩, ⟨"milk", "200ml"⟩]
      [⟨"egg", "6", "number"⟩, ⟨"flour", "500", "gram"⟩, ⟨"sugar", "50", "gram"⟩] =
      some (0, [("milk", 200)]) := by
  have p1 : parse_quantity_str "6number" = some 6 :=
    parse_eval_some _ "6".data 6 0 0 1 _ (by decide) (by decide) (by decide)
      (by decide) (by decide) (by decide) (by norm_num)
  have p2 : parse_quantity_str "500gram" = some 500 :=
    parse_eval_some _ "500".data 500 0 0 1 _ (by decide) (by decide) (by decide)
      (by decide) (by decide) (by decide) (by norm_num)
  have p3 : parse_quantity_str "50gram" = some 50 :=
    parse_eval_some _ "50".data 50 0 0 1 _ (by decide) (by decide) (by decide)
      (by decide) (by decide) (by decide) (by norm_num)
  have q1 : parse_quantity_str "2" = some 2 :=
    parse_eval_nounit _ "2".data 2 0 0 _ (by decide) (by decide) (by decide)
      (by decide) (by decide) (by decide) (by norm_num)
  have q2 : parse_quantity_str "300g" = some 300 :=
    parse_eval_some _ "300".data 300 0 0 1 _ (by decide) (by decide) (by decide)
      (by decide) (by decide) (by decide) (by norm_num)
  have q3 : parse_quantity_str "100g" = some 100 :=
    parse_eval_some _ "100".data 100 0 0 1 _ (by decide) (by decide) (by decide)
      (by decide) (by decide) (by decide) (by norm_num)
  have q4 : parse_quantity_str "200ml" = some 200 :=
    parse_eval_some _ "200".data 200 0 0 1 _ (by decide) (by decide) (by decide)
      (by decide) (by decide) (by decide) (by norm_num)
  have n1 : normalize_name "egg" = "egg" := by decide
  have n2 : normalize_name "flour" = "flour" := by decide
  have n3 : normalize_name "sugar" = "sugar" := by decide
  have n4 : normalize_name "milk" = "milk" := by decide
  have hud : buildUserDict [⟨"egg", "6", "number"⟩, ⟨"flour", "500", "gram"⟩,
      ⟨"sugar", "50", "gram"⟩] = some [("egg", 6), ("flour", 500), ("sugar", 50)] := by
    simp [buildUserDict, buildAux, p1, p2, p3, n1, n2, n3, dictSet, dictGet]
  simp [get_feasibility_score, hud, scoreLoop, q1, q2, q3, q4, n1, n2, n3, n4,
    VITAL, vitalEps, dictGet]
  norm_num

/-- C6 counterexample: on the input `"."` the regex `([\d\.]+)` of
`parse_quantity_str` matches the token `"."`, and `float(".")` raises
`ValueError` — the function does not return a float for every input
string, refuting "never fails". -/
theorem C6_counterexample_dot : parse_quantity_str "." = none := by decide

/-- Validity of the numeric token that `parse_quantity_str` extracts
from a string: either the regex finds nothing, or the digit-or-dot run
it finds is a well-formed float literal (at least one digit, at most
one dot). This is exactly the condition under which `float` does not
raise. -/
def validNumB (s : String) : Bool :=
  match findTok (pyPrep s) with
  | none => true
  | some t => tokValid t

/-- C6 amended: for every input string whose extracted numeric token (if
any) is a well-formed float literal, `parse_quantity_str` succeeds and
returns a non-negative rational; when no unit keyword matches, the
extracted amount is returned unconverted, and when no numeric token is
found the amount defaults to 1. (The unamendable part: on a malformed
token such as "." the code raises, per the counterexample.) -/
theorem C6_amended_parse_total (s : String) (hvalid : validNumB s = true) :
    (∃ q, parse_quantity_str s = some q ∧ 0 ≤ q) ∧
    (unitLookup (pyPrep s) = none → parse_quantity_str s = amountTok (pyPrep s)) ∧
    (findTok (pyPrep s) = none → amountTok (pyPrep s) = some 1) := by
  have ha : ∃ a, amountTok (pyPrep s) = some a ∧ 0 ≤ a := by
    unfold validNumB at hvalid
    cases hft : findTok (pyPrep s) with
    | none => exact ⟨1, by simp [amountTok, hft], by norm_num⟩
    | some t =>
      have hvt : tokValid t = true := by rw [hft] at hvalid; exact hvalid
      refine ⟨(natOfDigits (tokIntDigits t) : ℚ) +
        (natOfDigits (tokFracDigits t) : ℚ) / 10 ^ (tokFracDigits t).length,
        ?_, by positivity⟩
      simp [amountTok, hft, parseFloatTok, hvt]
  obtain ⟨a, ha1, ha2⟩ := ha
  refine ⟨?_, ?_, ?_⟩
  · cases hu : unitLookup (pyPrep s) with
    | none => exact ⟨a, by simp [parse_quantity_str, ha1, hu], ha2⟩
    | some f =>
      exact ⟨a * (f : ℚ), by simp [parse_quantity_str, ha1, hu],
        mul_nonneg ha2 (by positivity)⟩
  · intro hu
    simp [parse_quantity_str, ha1, hu]
  · intro hft
    simp [amountTok, hft]

/-- Witness for the amended C6 at a concrete input. -/
theorem C6_amended_parse_total_witness :
    validNumB "2 tbsp" = true ∧
      (∃ q, parse_quantity_str "2 tbsp" = some q ∧ 0 ≤ q) :=
  ⟨by decide, (C6_amended_parse_total "2 tbsp" (by decide)).1⟩

/-- C7 counterexample: `normalize_name "Fresh Tomatoes"` is not
"tomato" — the code deletes the descriptor "fresh", strips exactly one
trailing "s" from " tomatoes" and trims, yielding "tomatoe". -/
theorem C7_counterexample_tomatoes : normalize_name "Fresh Tomatoes" ≠ "tomato" := by
  decide

/-- C7 amended: `canonicalize("boiled eggs") = canonicalize("egg") =
"egg"`, while `canonicalize("Fresh Tomatoes") = "tomatoe"` (not
"tomato"): the naive depluralization strips a single trailing "s"
only. -/
theorem C7_canonicalize_examples :
    normalize_name "boiled eggs" = "egg" ∧ normalize_name "egg" = "egg" ∧
      normalize_name "Fresh Tomatoes" = "tomatoe" :=
  ⟨by decide, by decide, by decide⟩

/-- A single-character pattern occurs as a substring exactly when the
character occurs in the list. -/
theorem containsSub_singleton (c : Char) (l : List Char) :
    containsSub [c] l = true ↔ c ∈ l := by
  induction l with
  | nil => simp [containsSub, hasPref]
  | cons x xs ih => simp [containsSub, hasPref, ih]

/-- A non-whitespace member of a list survives `dropWhile isSpaceChar`. -/
theorem mem_dropWhile_not_space (c : Char) (hc : isSpaceChar c = false)
    (l : List Char) (h : c ∈ l) : c ∈ l.dropWhile isSpaceChar := by
  induction l with
  | nil => simp at h
  | cons x xs ih =>
    by_cases hx : isSpaceChar x = true
    · rw [List.dropWhile_cons_of_pos hx]
      rcases List.mem_cons.mp h with rfl | hmem
      · rw [hx] at hc; cases hc
      · exact ih hmem
    · rw [List.dropWhile_cons_of_neg hx]
      exact h

/-- A non-whitespace member of a list survives the strip. -/
theorem mem_pyStrip_not_space (c : Char) (hc : isSpaceChar c = false)
    (l : List Char) (h : c ∈ l) : c ∈ pyStrip l := by
  unfold pyStrip trimRight trimLeft
  have h1 := mem_dropWhile_not_space c hc l h
  have h2 := mem_dropWhile_not_space c hc _ (List.mem_reverse.mpr h1)
  exact List.mem_reverse.mpr h2

/-- C10 (implicit): for every quantity string whose lowercased form
contains the letter "g" anywhere — also inside a non-unit word such as
"large" — the unit scan stops at the first `UNIT_MAP` key "g" with
factor 1, so `parse_quantity_str` returns exactly the extracted amount
(the grams factor), even when a higher-factor keyword such as "cup" or
"tbsp" occurs later in the string. -/
theorem C10_grams_substring_wins (s : String)
    (h : containsSub "g".data (pyLower s.data) = true) :
    parse_quantity_str s = amountTok (pyPrep s) := by
  have e : "g".data = ['g'] := rfl
  rw [e] at h
  have hg : 'g' ∈ pyLower s.data := (containsSub_singleton 'g' _).mp h
  have hg2 : 'g' ∈ pyPrep s := by
    unfold pyPrep
    exact mem_pyStrip_not_space 'g' (by decide) _ hg
  have hu : unitLookup (pyPrep s) = some 1 := by
    unfold unitLookup UNIT_MAP
    rw [List.find?_cons_of_pos]
    · rfl
    · show containsSub "g".data (pyPrep s) = true
      rw [e]
      exact (containsSub_singleton _ _).mpr hg2
  cases ha : amountTok (pyPrep s) with
  | none => simp [parse_quantity_str, ha]
  | some a => simp [parse_quantity_str, ha, hu]

/-- Witness for C10 at a concrete input: "2 large cups" contains "g" in
"large", so the amount 2 is returned with the grams factor although
"cups" (factor 240) occurs later. -/
theorem C10_grams_substring_wins_witness :
    containsSub "g".data (pyLower (String.data "2 large cups")) = true ∧
      parse_quantity_str "2 large cups" = amountTok (pyPrep "2 large cups") :=
  ⟨by decide, C10_grams_substring_wins "2 large cups" (by decide)⟩

/-- The sort key of the ranking step: `x[1]`, the score component of a
`(recipe, score, missing_ings)` tuple. -/
def entryScore (e : Recipe × ℚ × List (String × ℚ)) : ℚ := e.2.1

/-- Insert an element into a descending-sorted list, before the first
strictly smaller key: equal keys stay ahead, so repeated insertion is a
stable descending sort. -/
def insertDesc {α : Type} (key : α → ℚ) (x : α) : List α → List α
  | [] => [x]
  | y :: ys => if key y < key x then x :: y :: ys else y :: insertDesc key x ys

/-- Stable descending sort by key, the extensional behaviour of Python
`list.sort(key=..., reverse=True)` (a stable sort). -/
def sortDesc {α : Type} (key : α → ℚ) (l : List α) : List α :=
  l.foldl (fun acc x => insertDesc key x acc) []

/-- Membership in an insertion. -/
theorem mem_insertDesc {α : Type} (key : α → ℚ) (x z : α) (l : List α) :
    z ∈ insertDesc key x l ↔ z = x ∨ z ∈ l := by
  induction l with
  | nil => simp [insertDesc]
  | cons y ys ih =>
    by_cases h : key y < key x
    · simp [insertDesc, h]
    · simp only [insertDesc, if_neg h, List.mem_cons, ih]
      tauto

/-- Insertion preserves descending sortedness. -/
theorem pairwise_insertDesc {α : Type} (key : α → ℚ) (x : α) (l : List α)
    (h : l.Pairwise (fun a b => key b ≤ key a)) :
    (insertDesc key x l).Pairwise (fun a b => key b ≤ key a) := by
  induction l with
  | nil => simp [insertDesc]
  | cons y ys ih =>
    rcases List.pairwise_cons.mp h with ⟨hy, hys⟩
    by_cases hlt : key y < key x
    · simp only [insertDesc, if_pos hlt]
      refine List.pairwise_cons.mpr ⟨?_, h⟩
      intro z hz
      rcases List.mem_cons.mp hz with rfl | hzys
      · exact le_of_lt hlt
      · exact (hy z hzys).trans (le_of_lt hlt)
    · simp only [insertDesc, if_neg hlt]
      refine List.pairwise_cons.mpr ⟨?_, ih hys⟩
      intro z hz
      rcases (mem_insertDesc key x z ys).mp hz with rfl | hzys
      · exact not_lt.mp hlt
      · exact hy z hzys

/-- Inserting an element with a different key does not change the
subsequence of entries with key `v`. -/
theorem filter_insertDesc_ne {α : Type} (key : α → ℚ) (x : α) (l : List α)
    (v : ℚ) (hne : key x ≠ v) :
    (insertDesc key x l).filter (fun e => decide (key e = v)) =
      l.filter (fun e => decide (key e = v)) := by
  induction l with
  | nil => simp [insertDesc, hne]
  | cons y ys ih =>
    by_cases hlt : key y < key x
    · simp only [insertDesc, if_pos hlt]
      simp [List.filter_cons, hne]
    · simp only [insertDesc, if_neg hlt]
      simp [List.filter_cons, ih]

/-- Inserting an element with key `v` into a descending-sorted list
appends it to the end of the subsequence of entries with key `v`:
stability of the insertion sort. -/
theorem filter_insertDesc_eq {α : Type} (key : α → ℚ) (x : α) (l : List α)
    (v : ℚ) (hsorted : l.Pairwise (fun a b => key b ≤ key a)) (hx : key x = v) :
    (insertDesc key x l).filter (fun e => decide (key e = v)) =
      l.filter (fun e => decide (key e = v)) ++ [x] := by
  induction l with
  | nil => simp [insertDesc, hx]
  | cons y ys ih =>
    rcases List.pairwise_cons.mp hsorted with ⟨hy, hys⟩
    by_cases hlt : key y < key x
    · simp only [insertDesc, if_pos hlt]
      have h0 : (y :: ys).filter (fun e => decide (key e = v)) = [] := by
        rw [List.filter_eq_nil_iff]
        intro z hz
        rcases List.mem_cons.mp hz with rfl | hzys
        · simp only [decide_eq_true_eq]
          intro hzv
          exact absurd (hx ▸ hzv ▸ hlt) (lt_irrefl _)
        · simp only [decide_eq_true_eq]
          intro hzv
          exact absurd (hx ▸ hzv ▸ (hy z hzys).trans_lt hlt) (lt_irrefl _)
      rw [List.filter_cons, h0]
      simp [hx]
    · simp only [insertDesc, if_neg hlt]
      rw [List.filter_cons, List.filter_cons]
      by_cases hyv : key y = v
      · simp [hyv, ih hys]
      · simp [hyv, ih hys]

/-- The insertion-sort fold preserves descending sortedness. -/
theorem foldl_insert_pairwise {α : Type} (key : α → ℚ) (l acc : List α)
    (hacc : acc.Pairwise (fun a b => key b ≤ key a)) :
    (l.foldl (fun acc x => insertDesc key x acc) acc).Pairwise
      (fun a b => key b ≤ key a) := by
  induction l generalizing acc with
  | nil => simpa using hacc
  | cons x xs ih =>
    simp only [List.foldl_cons]
    exact ih _ (pairwise_insertDesc key x acc hacc)

/-- The insertion-sort fold is stable: for each key value, the
subsequence of entries with that key is preserved in input order. -/
theorem foldl_insert_filter {α : Type} (key : α → ℚ) (l acc : List α) (v : ℚ)
    (hacc : acc.Pairwise (fun a b => key b ≤ key a)) :
    (l.foldl (fun acc x => insertDesc key x acc) acc).filter
        (fun e => decide (key e = v)) =
      acc.filter (fun e => decide (key e = v)) ++
        l.filter (fun e => decide (key e = v)) := by
  induction l generalizing acc with
  | nil => simp
  | cons x xs ih =>
    simp only [List.foldl_cons]
    rw [ih _ (pairwise_insertDesc key x acc hacc)]
    by_cases hx : key x = v
    · rw [filter_insertDesc_eq key x acc v hacc hx, List.filter_cons]
      simp [hx, List.append_assoc]
    · rw [filter_insertDesc_ne key x acc v hx, List.filter_cons]
      simp [hx]

/-- Elements of the insertion-sort fold come from the accumulator or
the input. -/
theorem mem_foldl_insert {α : Type} (key : α → ℚ) (l acc : List α) (z : α)
    (h : z ∈ l.foldl (fun acc x => insertDesc key x acc) acc) :
    z ∈ acc ∨ z ∈ l := by
  induction l generalizing acc with
  | nil => exact Or.inl (by simpa using h)
  | cons x xs ih =>
    simp only [List.foldl_cons] at h
    rcases ih _ h with hin | hin
    · rcases (mem_insertDesc key x z acc).mp hin with rfl | hz
      · exact Or.inr (List.mem_cons_self _ _)
      · exact Or.inl hz
    · exact Or.inr (List.mem_cons_of_mem _ hin)

/-- The scoring pass of the `chat` endpoint: score every catalog recipe
in order against the pantry and keep the tuples `(recipe, score,
missing_ings)` with score strictly above 0, preserving catalog order.
`none` models an exception escaping from scoring. -/
def scoredOf (pantry : List PantryItem) :
    List Recipe → Option (List (Recipe × ℚ × List (String × ℚ)))
  | [] => some []
  | r :: rest =>
    match get_feasibility_score r.ingredients pantry with
    | none => none
    | some (s, m) =>
      match scoredOf pantry rest with
      | none => none
      | some tail => some (if 0 < s then (r, s, m) :: tail else tail)

/-- The ranking step of the `chat` endpoint: sort the kept tuples by
score descending with the stable Python sort, then take the top 3. -/
def rank (catalog : List Recipe) (pantry : List PantryItem) :
    Option (List (Recipe × ℚ × List (String × ℚ))) :=
  match scoredOf pantry catalog with
  | none => none
  | some scored => some ((sortDesc entryScore scored).take 3)

/-- Every tuple kept by the scoring pass has a strictly positive
score. -/
theorem scoredOf_pos (pantry : List PantryItem) (catalog : List Recipe)
    (scored : List (Recipe × ℚ × List (String × ℚ)))
    (h : scoredOf pantry catalog = some scored) :
    ∀ e ∈ scored, 0 < entryScore e := by
  induction catalog generalizing scored with
  | nil =>
    simp only [scoredOf, Option.some.injEq] at h
    subst h
    simp
  | cons r rest ih =>
    simp only [scoredOf] at h
    cases hs : get_feasibility_score r.ingredients pantry with
    | none => rw [hs] at h; simp at h
    | some sm =>
      obtain ⟨s, m⟩ := sm
      rw [hs] at h
      cases ht : scoredOf pantry rest with
      | none => rw [ht] at h; simp at h
      | some tail =>
        rw [ht] at h
        have heq := Option.some.inj h
        intro e he
        by_cases h0 : 0 < s
        · rw [if_pos h0] at heq
          rw [← heq] at he
          rcases List.mem_cons.mp he with rfl | htail
          · exact h0
          · exact ih tail ht e htail
        · rw [if_neg h0] at heq
          rw [← heq] at he
          exact ih tail ht e he

/-- C4: for every recipe catalog and pantry, whenever the ranking step
returns, its output has at most 3 entries, holds no zero-score entry,
is sorted non-increasing by score, and — stability — for every score
value the entries carrying it form a prefix of the kept catalog entries
carrying it, in catalog order (no secondary tie-break). An empty output
is a valid outcome. -/
theorem C4_rank_properties (catalog : List Recipe) (pantry : List PantryItem)
    (scored out : List (Recipe × ℚ × List (String × ℚ)))
    (hs : scoredOf pantry catalog = some scored)
    (hr : rank catalog pantry = some out) :
    out.length ≤ 3 ∧
    (∀ e ∈ out, entryScore e ≠ 0) ∧
    out.Pairwise (fun a b => entryScore b ≤ entryScore a) ∧
    (∀ v : ℚ, ∃ rest, out.filter (fun e => decide (entryScore e = v)) ++ rest =
      scored.filter (fun e => decide (entryScore e = v))) := by
  have hout : out = (sortDesc entryScore scored).take 3 := by
    unfold rank at hr
    rw [hs] at hr
    exact (Option.some.inj hr).symm
  subst hout
  refine ⟨?_, ?_, ?_, ?_⟩
  · exact List.length_take_le 3 _
  · intro e he
    have hmem : e ∈ sortDesc entryScore scored := List.mem_of_mem_take he
    have hin : e ∈ scored := by
      rcases mem_foldl_insert entryScore scored [] e hmem with hz | hz
      · simp at hz
      · exact hz
    exact (scoredOf_pos pantry catalog scored hs e hin).ne'
  · exact List.Pairwise.sublist (List.take_sublist 3 _)
      (foldl_insert_pairwise entryScore scored [] (by simp))
  · intro v
    refine ⟨((sortDesc entryScore scored).drop 3).filter
      (fun e => decide (entryScore e = v)), ?_⟩
    rw [← List.filter_append, List.take_append_drop]
    have hst := foldl_insert_filter entryScore scored [] v (by simp)
    simpa [sortDesc] using hst

/-- A sample recipe with an empty ingredient list, used by the ranking
witness. -/
def sampleRecipe : Recipe := ⟨"Omelette", "Savory", "Any", "10", "simple", "cook", []⟩

/-- Witness for C4 at a concrete input: a one-recipe catalog whose
recipe has no ingredients scores 1 against the empty pantry and is
returned as the single ranked entry, which has a nonzero score. -/
theorem C4_rank_properties_witness :
    rank [sampleRecipe] [] = some [(sampleRecipe, 1, [])] ∧
      ∀ e ∈ [(sampleRecipe, (1 : ℚ), ([] : List (String × ℚ)))], entryScore e ≠ 0 := by
  have hgf : get_feasibility_score sampleRecipe.ingredients [] = some (1, []) := by
    norm_num [get_feasibility_score, buildUserDict, buildAux, scoreLoop, sampleRecipe]
  have h1 : scoredOf [] [sampleRecipe] = some [(sampleRecipe, 1, [])] := by
    simp [scoredOf, hgf]
  have h2 : rank [sampleRecipe] [] = some [(sampleRecipe, 1, [])] := by
    simp [rank, h1, sortDesc, insertDesc]
  exact ⟨h2, (C4_rank_properties [sampleRecipe] [] [(sampleRecipe, 1, [])]
    [(sampleRecipe, 1, [])] h1 h2).2.1⟩

/-- Decimal digit character for a value below 10. -/
def digitChar (n : ℕ) : Char := Char.ofNat (48 + n)

/-- Fuelled most-significant-first decimal rendering of a natural. -/
def natToCharsAux : ℕ → ℕ → List Char
  | 0, _ => []
  | fuel + 1, n =>
    if n < 10 then [digitChar n]
    else natToCharsAux fuel (n / 10) ++ [digitChar (n % 10)]

/-- Decimal rendering of a natural number. -/
def natToChars (n : ℕ) : List Char := natToCharsAux (n + 1) n

/-- Left-pad a digit string with zeros to width `d`. -/
def padZeros (d : ℕ) (l : List Char) : List Char :=
  List.replicate (d - l.length) '0' ++ l

/-- Fixed-point rendering of a rational with `d` decimal places,
rounding half to even — the exact-arithmetic counterpart of Python
format specifiers such as `:.2f` used by `build_chat_prompt`. -/
def fmtFixed (d : ℕ) (q : ℚ) : List Char :=
  let scaled := q * (10 : ℚ) ^ d
  let fl : ℤ := ⌊scaled⌋
  let n : ℤ :=
    if (1 : ℚ) / 2 < scaled - fl then fl + 1
    else if scaled - fl < 1 / 2 then fl
    else if fl % 2 = 0 then fl else fl + 1
  let sign : List Char := if n < 0 then ['-'] else []
  if d = 0 then sign ++ natToChars n.natAbs
  else sign ++ natToChars (n.natAbs / 10 ^ d) ++ ['.'] ++
    padZeros d (natToChars (n.natAbs % 10 ^ d))

/-- Python `sep.join(parts)`. -/
def joinSep (sep : List Char) : List (List Char) → List Char
  | [] => []
  | [x] => x
  | x :: xs => x ++ sep ++ joinSep sep xs

/-- One pantry line of the prompt. -/
def pantryLine (i : PantryItem) : List Char :=
  "- ".data ++ i.name.data ++ ": ".data ++ i.quantity.data ++
    " ".data ++ i.unit.data

/-- The pantry block `user_ing_text` of `build_chat_prompt`. -/
def userIngText (ings : List PantryItem) : List Char :=
  joinSep "\n".data (ings.map pantryLine)

/-- The `ing_list_str` rendering of a recipe ingredient list. -/
def ingListText (l : List RecipeIng) : List Char :=
  joinSep ", ".data
    (l.map (fun i => i.item.data ++ " (".data ++ i.quantity.data ++ ")".data))

/-- The `missing_str` rendering: empty for an empty missing list,
otherwise the labelled comma-joined shortfall entries. -/
def missingText (missing : List (String × ℚ)) : List Char :=
  match missing with
  | [] => []
  | _ =>
    "Missing or short ingredients: ".data ++
      joinSep ", ".data
        (missing.map (fun nm =>
          nm.1.data ++ " (~".data ++ fmtFixed 1 nm.2 ++ "g short)".data))

/-- The `text_block` rendered by `build_chat_prompt` for one scored
recipe tuple. -/
def recipeBlock (e : Recipe × ℚ × List (String × ℚ)) : List Char :=
  "\nRecipe: ".data ++ e.1.title.data ++
  "\n - Taste: ".data ++ e.1.taste.data ++
  "\n - Cuisine: ".data ++ e.1.cuisine.data ++
  "\n - Prep Time: ".data ++ e.1.prep_time.data ++ " minutes".data ++
  "\n - Description: ".data ++ e.1.description.data ++
  "\n - Ingredients: ".data ++ ingListText e.1.ingredients ++
  "\n - Instructions: ".data ++ e.1.instructions.data ++
  "\n - Fitness Score: ".data ++ fmtFixed 2 e.2.1 ++
  "\n - ".data ++ missingText e.2.2 ++ "\n".data

/-- The `all_recipes_str` block: the recipe blocks joined by blank
lines, one block per scored tuple, in list order. -/
def allRecipesText (top : List (Recipe × ℚ × List (String × ℚ))) : List Char :=
  joinSep "\n\n".data (top.map recipeBlock)

/-- The literal prompt text before the interpolated user request. -/
def promptPre : String :=
  "\nYou are an AI assistant that suggests recipes based on user preferences and available ingredients.\n\nUser\x27s request: "

/-- The same text with the leading newline stripped. -/
def promptPreStripped : String :=
  "You are an AI assistant that suggests recipes based on user preferences and available ingredients.\n\nUser\x27s request: "

/-- The literal prompt text between the user request and the pantry
block. -/
def promptMid1 : String :=
  "\n\nUser currently has these ingredients (approx in grams):\n"

/-- The literal prompt text between the pantry block and the recipe
blocks. -/
def promptMid2 : String :=
  "\n\nHere are some recipes that partly or fully match the user\x27s ingredients:\n"

/-- The literal closing directive of the prompt. -/
def promptTail : String :=
  "\n\nOnly recommend recipes with a good fitness score (above ~0.5) and \navoid those missing vital ingredients entirely. Suggest how to handle small shortages.\nRespond in a friendly and concise way.\n"

/-- The prompt before the final strip, assembled exactly as the
f-string of `build_chat_prompt` interpolates its pieces. -/
def promptCore (u : String) (ings : List PantryItem)
    (top : List (Recipe × ℚ × List (String × ℚ))) : List Char :=
  promptPre.data ++ u.data ++ promptMid1.data ++ userIngText ings ++
    promptMid2.data ++ allRecipesText top ++ promptTail.data

/-- The function `build_chat_prompt` of `chatbot.py` (with each scored
tuple carrying its recipe ingredient rows in place of the database
fetch): assemble the prompt and strip surrounding whitespace. -/
def build_chat_prompt (u : String) (ings : List PantryItem)
    (top : List (Recipe × ℚ × List (String × ℚ))) : String :=
  String.mk (pyStrip (promptCore u ings top))

/-- Stripping on the right passes over a prefix whenever the suffix
keeps at least one character. -/
theorem trimRight_append (a t : List Char) (h : trimRight t ≠ []) :
    trimRight (a ++ t) = a ++ trimRight t := by
  unfold trimRight at h ⊢
  have h2 : (t.reverse.dropWhile isSpaceChar).isEmpty = false := by
    rcases hh : t.reverse.dropWhile isSpaceChar with _ | ⟨c, cs⟩
    · rw [hh] at h
      simp at h
    · rfl
  rw [List.reverse_append, List.dropWhile_append, h2]
  simp

/-- Stripping on the left removes exactly the leading newline of the
prompt preamble, whatever follows it. -/
theorem trimLeft_promptPre (rest : List Char) :
    trimLeft (promptPre.data ++ rest) = promptPreStripped.data ++ rest := rfl

/-- C8: for every user request, pantry and scored shortlist, the string
returned by `build_chat_prompt` decomposes as literal text, then the
raw user request verbatim, then the pantry section, then the
`"\n\n"`-joined sequence of recipe blocks — exactly one block per
shortlist entry via `recipeBlock`, in shortlist order — then the
closing directive: in particular it contains the user request verbatim
as a substring and the recipe blocks in order. -/
theorem C8_prompt_structure (u : String) (ings : List PantryItem)
    (top : List (Recipe × ℚ × List (String × ℚ))) :
    ∃ a b c, (build_chat_prompt u ings top).data =
      a ++ u.data ++ b ++ allRecipesText top ++ c := by
  refine ⟨promptPreStripped.data,
    promptMid1.data ++ userIngText ings ++ promptMid2.data,
    trimRight promptTail.data, ?_⟩
  show pyStrip (promptCore u ings top) = _
  unfold pyStrip promptCore
  rw [show promptPre.data ++ u.data ++ promptMid1.data ++ userIngText ings ++
      promptMid2.data ++ allRecipesText top ++ promptTail.data =
      promptPre.data ++ (u.data ++ (promptMid1.data ++
        (userIngText ings ++ (promptMid2.data ++ (allRecipesText top ++
          promptTail.data))))) from by simp [List.append_assoc]]
  rw [trimLeft_promptPre]
  have hT : trimRight promptTail.data ≠ [] := by decide
  have hassoc : promptPreStripped.data ++ (u.data ++ (promptMid1.data ++
      (userIngText ings ++ (promptMid2.data ++ (allRecipesText top ++ promptTail.data))))) =
      (promptPreStripped.data ++ (u.data ++ (promptMid1.data ++
        (userIngText ings ++ (promptMid2.data ++ allRecipesText top))))) ++
        promptTail.data := by
    simp [List.append_assoc]
  rw [hassoc, trimRight_append _ _ hT]
  simp [List.append_assoc]
